import Mathlib

/-!
Verification of the `delete-rest` file-selection utility.

The development shallowly embeds the Rust sources:
  * `src/keepfile.rs`  — keep-list parsing and filename/number matching,
  * `src/config.rs`    — extension-based classification,
  * `src/action.rs`    — action resolution and the move/copy primitive,
  * `src/file_source.rs` — the lazy filtered file collection,
  * `src/main.rs`      — the stage-2 reconciliation choice and the two
    execution handlers (`handle_delete`, `handle_move_or_copy`).

Machine integers (`u32`) are modelled as `Nat` with an explicit
`< 2^32` bound where the Rust `parse::<u32>` can fail.  Filesystem
side effects are modelled as an explicit trace of attempted syscalls,
with an oracle `ok : FsOp → Bool` deciding which calls succeed, and
the two output streams as lists of structured lines.
-/

namespace DeleteRest

/-! ### Digit runs and `u32` parsing -/

/-- The first maximal contiguous digit run of a character list, if any.
This is what the Rust regex call `regex!("(\\d+)").captures(filename)`
followed by taking the (only) capture group extracts: the regex engine
returns the leftmost match, and `\d+` greedily takes the maximal run
starting at the first digit. -/
def firstDigitRun : List Char → Option (List Char)
  | [] => none
  | c :: cs =>
    if c.isDigit then some (c :: cs.takeWhile Char.isDigit)
    else firstDigitRun cs

/-- Numeric value of a digit list, most significant digit first
(accumulating fold, as in integer parsing). -/
def digitsVal (ds : List Char) : Nat :=
  ds.foldl (fun a c => a * 10 + (c.toNat - 48)) 0

/-- Drop one leading ASCII plus sign, as Rust's `str::parse::<u32>` allows. -/
def stripPlus (cs : List Char) : List Char :=
  match cs with
  | c :: rest => if c = '+' then rest else c :: rest
  | [] => []

/-- Model of Rust `str::parse::<u32>()` on a character list: an optional
leading `+`, then a nonempty all-digit string whose value fits in 32 bits;
anything else fails. -/
def parseU32 (cs : List Char) : Option Nat :=
  let ds := stripPlus cs
  if ds.isEmpty then none
  else if ds.all Char.isDigit then
    if digitsVal ds < 4294967296 then some (digitsVal ds) else none
  else none

/-! ### Paths

A path is modelled as its list of normal components.  Rust's
`Path::file_name().and_then(|f| f.to_str())` is the last component when
one exists (a path with no final component — e.g. the root — yields
`none`; non-UTF-8 names are not representable in this model). -/

structure RPath where
  comps : List String
deriving DecidableEq, Repr

def RPath.fileName (p : RPath) : Option String :=
  p.comps.getLast?

/-- Extension of a file name, per Rust `Path::extension`: the portion
after the last dot, provided there is a dot and the portion before the
last dot is nonempty. -/
def extOf (name : List Char) : Option (List Char) :=
  let r := name.reverse
  let ext := r.takeWhile (fun c => c ≠ '.')
  if ext.length = r.length then none
  else if r.drop (ext.length + 1) = [] then none
  else some ext.reverse

def RPath.extension (p : RPath) : Option String :=
  p.fileName.bind (fun f => (extOf f.data).map (fun l => String.mk l))

/-- ASCII lowercasing of one character (`char::to_ascii_lowercase`). -/
def asciiLower (c : Char) : Char :=
  if 'A' ≤ c ∧ c ≤ 'Z' then Char.ofNat (c.toNat + 32) else c

def lowerAscii (s : String) : String :=
  String.mk (s.data.map asciiLower)

/-- Model of `Path::strip_prefix`: succeeds iff `base`'s components are a
prefix of `p`'s, returning the remaining components. -/
def RPath.stripPrefixFrom (p base : RPath) : Option (List String) :=
  if base.comps.isPrefixOf p.comps then some (p.comps.drop base.comps.length)
  else none

/-- Model of `Path::join` with a relative component list. -/
def RPath.join (p : RPath) (rel : List String) : RPath :=
  ⟨p.comps ++ rel⟩

/-- Model of `Path::parent`: drop the last component; `none` on an empty
path. -/
def RPath.parent (p : RPath) : Option RPath :=
  match p.comps with
  | [] => none
  | _ :: _ => some ⟨p.comps.dropLast⟩

/-- Split a character list at `/` separators. -/
def splitSlash : List Char → List (List Char)
  | [] => [[]]
  | c :: cs =>
    match splitSlash cs with
    | [] => [[c]]
    | r :: rs => if c = '/' then [] :: r :: rs else (c :: r) :: rs

/-- Model of `PathBuf::from` on a string: its nonempty `/`-separated
components. -/
def RPath.fromString (s : String) : RPath :=
  ⟨((splitSlash s.data).filter (fun c => c ≠ [])).map (fun l => String.mk l)⟩

/-! ### KeepFile (`src/keepfile.rs`) -/

/-- `KeepFile`: the list of numbers to keep (`KeepFileLine(u32)` wrappers
collapsed to their `Nat` payloads). -/
structure KeepFile where
  lines : List Nat
deriving DecidableEq, Repr

/-- `KeepFile::matches_number`: extract the first digit run of the file
name, parse it as `u32`, compare with `num`; any failure is `false`.
Mirrors `captures(..).and_then(..).and_then(parse).map_or(false, == num)`. -/
def KeepFile.matches_number (filename : String) (num : Nat) : Bool :=
  (((firstDigitRun filename.data).bind parseU32).map (fun m => m == num)).getD false

/-- `KeepFile::into_inclusion_matcher`: keep paths whose file name matches
any kept number; a path with no extractable file name is rejected. -/
def KeepFile.into_inclusion_matcher (kf : KeepFile) (p : RPath) : Bool :=
  match p.fileName with
  | none => false
  | some filename => kf.lines.any (fun n => KeepFile.matches_number filename n)

/-- `KeepFile::into_exclusion_matcher`: keep paths whose file name matches
none of the kept numbers; a path with no extractable file name is rejected. -/
def KeepFile.into_exclusion_matcher (kf : KeepFile) (p : RPath) : Bool :=
  match p.fileName with
  | none => false
  | some filename => kf.lines.all (fun n => !KeepFile.matches_number filename n)

/-- Worker for `KeepFile::try_load`: walks the lines with their 0-based
index, partitioning parse successes and failures in order, recording each
failure's 1-based line number and raw text (mirrors
`enumerate().map(..).partition_result()`). -/
def KeepFile.partitionLines (k : Nat) : List String → (List Nat × List (Nat × String))
  | [] => ([], [])
  | l :: ls =>
    let rest := KeepFile.partitionLines (k + 1) ls
    match parseU32 l.data with
    | some v => (v :: rest.1, rest.2)
    | none => (rest.1, (k + 1, l) :: rest.2)

instance instDecEqExcept {ε α : Type} [DecidableEq ε] [DecidableEq α] :
    DecidableEq (Except ε α) := fun a b =>
  match a, b with
  | Except.ok x, Except.ok y =>
    if h : x = y then isTrue (h ▸ rfl)
    else isFalse (fun hh => h (by injection hh))
  | Except.error x, Except.error y =>
    if h : x = y then isTrue (h ▸ rfl)
    else isFalse (fun hh => h (by injection hh))
  | Except.ok _, Except.error _ => isFalse (fun hh => Except.noConfusion hh)
  | Except.error _, Except.ok _ => isFalse (fun hh => Except.noConfusion hh)

/-- `KeepFile::try_load`, with the file abstracted to its list of lines:
all lines parse → the keep file; otherwise a format error listing every
offending line. -/
def KeepFile.try_load (lines : List String) : Except (List (Nat × String)) KeepFile :=
  let parts := KeepFile.partitionLines 0 lines
  if parts.2.isEmpty then Except.ok ⟨parts.1⟩ else Except.error parts.2

/-! ### Spec-side definitions (for refinement comparison only) -/

/-- Modelled from the spec's words, NOT from the code: "extract the *last*
contiguous digit run anywhere in `filename`".  The last run of a list is
the reversed first run of its reversal. -/
def specLastDigitRun (cs : List Char) : Option (List Char) :=
  (firstDigitRun cs.reverse).map List.reverse

/-! ### ConfigFile (`src/config.rs`) -/

/-- `ConfigFile`, restricted to the fields the extension check reads
(the regex `formats` list is not consulted by `has_extension`). -/
structure ConfigFile where
  name : Option String
  extensions : List String

/-- `ConfigFile::has_extension`: the path's extension, lowercased, must be
contained in the configured extension list; a path without an extension
never matches.  (Note: the code has no special case for an empty
extension list.) -/
def ConfigFile.has_extension (cfg : ConfigFile) (p : RPath) : Bool :=
  (((p.extension).map lowerAscii).map (fun e => cfg.extensions.contains e)).getD false

/-! ### Action (`src/action.rs`) -/

inductive MoveOrCopy where
  | move
  | copy
deriving DecidableEq, Repr

inductive Action where
  | moveOrCopyTo (op : MoveOrCopy) (dest : RPath)
  | delete
deriving DecidableEq, Repr

/-- `Action::new`: mirrors the Rust `match (move_to, copy_to, delete)`
with its arm order (copy first, then move, then the no-flag default,
then delete). -/
def Action.new (copy_to move_to : Option String) (del : Bool) : Action :=
  match move_to, copy_to, del with
  | _, some path, _ => Action.moveOrCopyTo MoveOrCopy.copy (RPath.fromString path)
  | some path, _, _ => Action.moveOrCopyTo MoveOrCopy.move (RPath.fromString path)
  | none, none, false => Action.moveOrCopyTo MoveOrCopy.copy (RPath.fromString "selected")
  | _, _, true => Action.delete

/-! ### File sources (`src/file_source.rs`) -/

/-- A `FileSource`: either the base `SelectedFiles` (a directory and its
scanned file list) or a `FilteredFiles` decorator pairing a source with a
matcher. -/
inductive Source where
  | selected (dir : RPath) (files : List RPath)
  | filtered (src : Source) (matcher : RPath → Bool)

/-- Iteration: the base yields its file list; a filtered source lazily
filters its wrapped source's iteration (`source.iter().filter(matcher)`). -/
def Source.iter : Source → List RPath
  | Source.selected _ files => files
  | Source.filtered s m => (Source.iter s).filter m

/-- `FileSource::dir`: forwarded through decorators to the base. -/
def Source.dir : Source → RPath
  | Source.selected d _ => d
  | Source.filtered s _ => Source.dir s

/-- `FileSource::filter_by`: wrap in a new `FilteredFiles`. -/
def Source.filter_by (s : Source) (m : RPath → Bool) : Source :=
  Source.filtered s m

/-- The stage-2 reconciliation predicate chosen in `main` from the
resolved action (`main.rs` lines 207–210). -/
def stage2_matcher (action : Action) (kf : KeepFile) : RPath → Bool :=
  match action with
  | Action.delete => kf.into_exclusion_matcher
  | Action.moveOrCopyTo _ _ => kf.into_inclusion_matcher

/-! ### Execution (`src/main.rs` handlers, `src/action.rs` move/copy)

Filesystem mutation is modelled as a trace of attempted syscalls; an
oracle `ok : FsOp → Bool` decides which attempts succeed.  The two output
streams are lists of structured lines. -/

/-- An attempted filesystem mutation. -/
inductive FsOp where
  | removeFile (p : RPath)
  | createDirAll (p : RPath)
  | rename (src dest : RPath)
  | copyFile (src dest : RPath)
deriving DecidableEq, Repr

/-- A line printed to standard output or standard error. -/
inductive OutLine where
  /-- `println!("Deleted: {}")` -/
  | deleted (p : RPath)
  /-- `println!("{} \"{}\" from to \"{}\"", op.description(), src, dest)` -/
  | transferred (op : MoveOrCopy) (src dest : RPath)
  /-- `eprintln!("Error: {}")` after a failed `remove_file` -/
  | rmError (p : RPath)
  /-- `eprintln!("Error: {}")` after a failed `move_or_copy` -/
  | mcError (src dest : RPath)
  /-- `eprintln!("{} errors occurred")` -/
  | summary (n : Nat)
deriving DecidableEq, Repr

/-- Result of running a handler: both output streams and the attempted
filesystem mutations, in order. -/
structure ExecResult where
  stdout : List OutLine
  stderr : List OutLine
  ops : List FsOp
deriving DecidableEq, Repr

/-- `ExecutionOptions` (`lib.rs`). -/
structure ExecutionOptions where
  dry_run : Bool
  verbose : Bool
deriving DecidableEq, Repr

/-- `MoveOrCopy::move_or_copy`: take the destination's parent (error when
there is none), `create_dir_all` it, then `rename` or `copy`.  Returns the
attempted syscalls and whether the whole operation succeeded. -/
def MoveOrCopy.move_or_copy (ok : FsOp → Bool) (op : MoveOrCopy) (src dest : RPath) :
    List FsOp × Bool :=
  match dest.parent with
  | none => ([], false)
  | some parent =>
    let mk := FsOp.createDirAll parent
    if ok mk then
      let t := match op with
        | MoveOrCopy.move => FsOp.rename src dest
        | MoveOrCopy.copy => FsOp.copyFile src dest
      ([mk, t], ok t)
    else ([mk], false)

/-- Per-file loop state: outputs, attempted ops and the error counter. -/
structure LoopOut where
  stdout : List OutLine
  stderr : List OutLine
  ops : List FsOp
  errs : Nat
deriving DecidableEq, Repr

/-- The non-dry-run loop of `handle_delete`: attempt `remove_file` on each
path; on failure print an error and count it; if verbose print the
"Deleted" line regardless of the outcome. -/
def deleteLoop (ok : FsOp → Bool) (verbose : Bool) : List RPath → LoopOut
  | [] => ⟨[], [], [], 0⟩
  | f :: fs =>
    let r := deleteLoop ok verbose fs
    let fail := !(ok (FsOp.removeFile f))
    ⟨if verbose then OutLine.deleted f :: r.stdout else r.stdout,
     if fail then OutLine.rmError f :: r.stderr else r.stderr,
     FsOp.removeFile f :: r.ops,
     (if fail then 1 else 0) + r.errs⟩

/-- `handle_delete` (`main.rs`): on dry-run, print the verbose listing and
return without touching the filesystem; otherwise run the loop and, if any
errors were counted, print the summary line. -/
def handle_delete (ok : FsOp → Bool) (options : ExecutionOptions)
    (files : List RPath) : ExecResult :=
  if options.dry_run then
    ⟨if options.verbose then files.map OutLine.deleted else [], [], []⟩
  else
    let r := deleteLoop ok options.verbose files
    ⟨r.stdout, r.stderr ++ (if 0 < r.errs then [OutLine.summary r.errs] else []), r.ops⟩

/-- The loop of `handle_move_or_copy`: for each source path, strip the
collection root (silently skipping the path when that fails), build the
destination, attempt the transfer unless dry-run (counting and reporting a
failure), and if verbose print the transfer line regardless of dry-run. -/
def mcLoop (ok : FsOp → Bool) (op : MoveOrCopy) (dry verbose : Bool)
    (srcDir destDir : RPath) : List RPath → LoopOut
  | [] => ⟨[], [], [], 0⟩
  | src :: rest =>
    let r := mcLoop ok op dry verbose srcDir destDir rest
    match src.stripPrefixFrom srcDir with
    | none => r
    | some rel =>
      let dest := destDir.join rel
      let attempt := if dry then ([], true) else op.move_or_copy ok src dest
      ⟨if verbose then OutLine.transferred op src dest :: r.stdout else r.stdout,
       if attempt.2 then r.stderr else OutLine.mcError src dest :: r.stderr,
       attempt.1 ++ r.ops,
       (if attempt.2 then 0 else 1) + r.errs⟩

/-- `handle_move_or_copy` (`main.rs`): run the loop and, if any errors were
counted, print the summary line. -/
def handle_move_or_copy (ok : FsOp → Bool) (op : MoveOrCopy)
    (options : ExecutionOptions) (srcDir : RPath) (files : List RPath)
    (destDir : RPath) : ExecResult :=
  let r := mcLoop ok op options.dry_run options.verbose srcDir destDir files
  ⟨r.stdout, r.stderr ++ (if 0 < r.errs then [OutLine.summary r.errs] else []), r.ops⟩

/-- A path on which the non-dry-run delete loop fails: the `remove_file`
attempt is refused by the oracle. -/
def rmFailsAt (ok : FsOp → Bool) (f : RPath) : Bool :=
  !(ok (FsOp.removeFile f))

/-- The destination `handle_move_or_copy` computes for a source path
(meaningful when prefix stripping succeeds). -/
def mcDestFor (srcDir destDir src : RPath) : RPath :=
  destDir.join ((src.stripPrefixFrom srcDir).getD [])

/-- A path on which the non-dry-run move/copy loop fails: prefix stripping
succeeds but the transfer does not.  A path whose prefix cannot be
stripped is NOT a failure here — the code silently skips it. -/
def mcFailsAt (ok : FsOp → Bool) (op : MoveOrCopy) (srcDir destDir : RPath)
    (src : RPath) : Bool :=
  match src.stripPrefixFrom srcDir with
  | none => false
  | some rel => !(op.move_or_copy ok src (destDir.join rel)).2

/-! ## Helper lemmas -/

theorem into_exclusion_eq_true_iff (kf : KeepFile) (p : RPath) :
    kf.into_exclusion_matcher p = true ↔
      ∃ f, p.fileName = some f ∧ ∀ n ∈ kf.lines, KeepFile.matches_number f n = false := by
  cases h : p.fileName with
  | none => simp [KeepFile.into_exclusion_matcher, h]
  | some f => simp [KeepFile.into_exclusion_matcher, h, List.all_eq_true]

theorem into_inclusion_eq_true_iff (kf : KeepFile) (p : RPath) :
    kf.into_inclusion_matcher p = true ↔
      ∃ f, p.fileName = some f ∧ ∃ n ∈ kf.lines, KeepFile.matches_number f n = true := by
  cases h : p.fileName with
  | none => simp [KeepFile.into_inclusion_matcher, h]
  | some f => simp [KeepFile.into_inclusion_matcher, h, List.any_eq_true]

/-! ## Claims -/

/-- Claim C1: the stage-2 reconciliation predicate is chosen by the
resolved action.  Under `Delete` the keep file is turned into the
exclusion matcher, so exactly those stage-1 survivors whose filename
matches none of the kept numbers survive; under `MoveOrCopyTo` it is
turned into the inclusion matcher, so exactly those whose filename matches
at least one kept number survive. -/
theorem stage2_predicate_by_action (s : Source) (kf : KeepFile) (p : RPath) :
    (p ∈ (s.filter_by (stage2_matcher Action.delete kf)).iter ↔
       p ∈ s.iter ∧ ∃ f, p.fileName = some f ∧
         ∀ n ∈ kf.lines, KeepFile.matches_number f n = false) ∧
    (∀ (op : MoveOrCopy) (d : RPath),
       p ∈ (s.filter_by (stage2_matcher (Action.moveOrCopyTo op d) kf)).iter ↔
         p ∈ s.iter ∧ ∃ f, p.fileName = some f ∧
           ∃ n ∈ kf.lines, KeepFile.matches_number f n = true) := by
  constructor
  · rw [show (s.filter_by (stage2_matcher Action.delete kf)).iter
        = s.iter.filter kf.into_exclusion_matcher from rfl,
      List.mem_filter, into_exclusion_eq_true_iff]
  · intro op d
    rw [show (s.filter_by (stage2_matcher (Action.moveOrCopyTo op d) kf)).iter
        = s.iter.filter kf.into_inclusion_matcher from rfl,
      List.mem_filter, into_inclusion_eq_true_iff]

/-- Claim C3 (code evaluation): with an empty configured extension list,
`has_extension` is false for every path — the code has no empty-set
wildcard; `extensions.contains` over an empty list never holds.  This
contradicts the documented intent (`extensions: vec![] // All extensions`
in the hardcoded fallback config). -/
theorem has_extension_empty_set_never_matches :
    (∀ p : RPath, ConfigFile.has_extension ⟨some "default_all", []⟩ p = false) ∧
    ConfigFile.has_extension ⟨some "default_all", []⟩ (RPath.mk ["test.txt"]) = false := by
  constructor
  · intro p
    cases h : p.extension with
    | none => simp [ConfigFile.has_extension, h]
    | some e => simp [ConfigFile.has_extension, h, List.contains]
  · decide

/-- Claim C4: `Action::new` resolves by fixed priority, exhaustively: a
given copy destination always wins; otherwise a given move destination;
otherwise the delete flag; otherwise the default is copy to the hardcoded
`"selected"` directory. -/
theorem action_new_priority :
    (∀ (x : String) (m : Option String) (d : Bool),
       Action.new (some x) m d = Action.moveOrCopyTo MoveOrCopy.copy (RPath.fromString x)) ∧
    (∀ (y : String) (d : Bool),
       Action.new none (some y) d = Action.moveOrCopyTo MoveOrCopy.move (RPath.fromString y)) ∧
    Action.new none none true = Action.delete ∧
    Action.new none none false = Action.moveOrCopyTo MoveOrCopy.copy (RPath.mk ["selected"]) := by
  refine ⟨fun x m d => ?_, fun y d => ?_, rfl, by decide⟩
  · cases m <;> cases d <;> rfl
  · cases d <;> rfl

theorem filter_filter_and (A B : RPath → Bool) (l : List RPath) :
    (l.filter A).filter B = l.filter (fun p => A p && B p) := by
  induction l with
  | nil => rfl
  | cons a l ih =>
    cases hA : A a <;> cases hB : B a <;> simp [List.filter_cons, hA, hB, ih]

/-- Claim C7: filtering a collection by predicate `A` and then the result
by `B` yields, on iteration, exactly the same sequence of paths as
filtering once by the conjunction `A ∧ B`. -/
theorem filter_by_chain_eq_conjunction (s : Source) (A B : RPath → Bool) :
    ((s.filter_by A).filter_by B).iter = (s.filter_by (fun p => A p && B p)).iter := by
  show (s.iter.filter A).filter B = s.iter.filter (fun p => A p && B p)
  exact filter_filter_and A B s.iter

theorem firstDigitRun_eq_none_of_no_digits (cs : List Char)
    (h : ∀ c ∈ cs, c.isDigit = false) : firstDigitRun cs = none := by
  induction cs with
  | nil => rfl
  | cons c cs ih =>
    have hc := h c (List.mem_cons_self c cs)
    simp only [firstDigitRun, hc, Bool.false_eq_true, if_false]
    exact ih (fun x hx => h x (List.mem_cons_of_mem c hx))

/-- Claim C2 (counterexample): the claim says `matches_number` compares
against the *last* digit run; but on `"a1b2"`, whose last run is `"2"`,
`matches_number "a1b2" 2` is `false` while `matches_number "a1b2" 1` —
the *first* run — is `true`. -/
theorem matches_number_last_run_counterexample :
    specLastDigitRun "a1b2".data = some ['2'] ∧ parseU32 ['2'] = some 2 ∧
    KeepFile.matches_number "a1b2" 2 = false ∧
    KeepFile.matches_number "a1b2" 1 = true := by decide

/-- Claim C2 (amended): `matches_number(f, n)` compares `n` against the
*first* contiguous digit run of `f` (the regex `captures` call returns the
leftmost match): a filename with no digits matches no `n`, and a filename
whose first digit run parses (as `u32`) to `d` matches `d` and does not
match `d + 1`. -/
theorem matches_number_first_run :
    (∀ (f : String), (∀ c ∈ f.data, c.isDigit = false) →
       ∀ n, KeepFile.matches_number f n = false) ∧
    (∀ (f : String) (run : List Char) (d : Nat),
       firstDigitRun f.data = some run → parseU32 run = some d →
       KeepFile.matches_number f d = true ∧
       KeepFile.matches_number f (d + 1) = false) := by
  constructor
  · intro f h n
    simp [KeepFile.matches_number, firstDigitRun_eq_none_of_no_digits f.data h]
  · intro f run d h1 h2
    constructor
    · simp [KeepFile.matches_number, h1, h2]
    · have hne : (d == d + 1) = false := beq_eq_false_iff_ne.2 (by omega)
      simp [KeepFile.matches_number, h1, h2, hne]

/-- Witness for C2's amended theorem at the concrete input `"a1b2"`,
whose first digit run is `"1"`. -/
theorem matches_number_first_run_witness :
    firstDigitRun "a1b2".data = some ['1'] ∧ parseU32 ['1'] = some 1 ∧
    KeepFile.matches_number "a1b2" 1 = true ∧
    KeepFile.matches_number "a1b2" 2 = false :=
  ⟨by decide, by decide,
   (matches_number_first_run.2 "a1b2" ['1'] 1 (by decide) (by decide)).1,
   (matches_number_first_run.2 "a1b2" ['1'] 1 (by decide) (by decide)).2⟩

theorem all_not_eq_not_any (l : List Nat) (q : Nat → Bool) :
    (l.all fun n => !q n) = !(l.any q) := by
  induction l with
  | nil => rfl
  | cons a l ih => simp [List.all_cons, List.any_cons, ih, Bool.not_or]

/-- Claim C9: on a path with no extractable file name both matchers built
from the same keep file return `false` — such a path never survives
stage 2 under any action — and exactly on these paths the two matchers
fail to be logical negations of each other. -/
theorem matchers_on_nameless_paths (kf : KeepFile) (p : RPath) :
    (p.fileName = none →
       kf.into_inclusion_matcher p = false ∧ kf.into_exclusion_matcher p = false) ∧
    ((kf.into_inclusion_matcher p = !(kf.into_exclusion_matcher p)) ↔
       p.fileName.isSome = true) := by
  cases h : p.fileName with
  | none =>
    refine ⟨fun _ => ⟨?_, ?_⟩, ?_⟩
    · simp [KeepFile.into_inclusion_matcher, h]
    · simp [KeepFile.into_exclusion_matcher, h]
    · simp [KeepFile.into_inclusion_matcher, KeepFile.into_exclusion_matcher, h]
  | some f =>
    refine ⟨fun hc => absurd hc (by simp [h]), ?_⟩
    simp [KeepFile.into_inclusion_matcher, KeepFile.into_exclusion_matcher, h,
      all_not_eq_not_any]

/-- Witness for C9 at the empty path (no final component) and the keep
list `[1, 4]`. -/
theorem matchers_on_nameless_paths_witness :
    (RPath.mk []).fileName = none ∧
    KeepFile.into_inclusion_matcher ⟨[1, 4]⟩ (RPath.mk []) = false ∧
    KeepFile.into_exclusion_matcher ⟨[1, 4]⟩ (RPath.mk []) = false :=
  ⟨rfl, ((matchers_on_nameless_paths ⟨[1, 4]⟩ (RPath.mk [])).1 rfl).1,
   ((matchers_on_nameless_paths ⟨[1, 4]⟩ (RPath.mk [])).1 rfl).2⟩

theorem firstDigitRun_some_shape (cs run : List Char)
    (h : firstDigitRun cs = some run) :
    run ≠ [] ∧ run.all Char.isDigit = true := by
  induction cs with
  | nil => simp [firstDigitRun] at h
  | cons c cs ih =>
    by_cases hc : c.isDigit
    · simp only [firstDigitRun, hc, if_true, Option.some.injEq] at h
      subst h
      refine ⟨List.cons_ne_nil _ _, ?_⟩
      rw [List.all_eq_true]
      intro x hx
      rcases List.mem_cons.1 hx with hxc | hxt
      · subst hxc; exact hc
      · exact List.mem_takeWhile_imp hxt
    · simp only [firstDigitRun, hc, Bool.false_eq_true, if_false] at h
      exact ih h

theorem parseU32_overflow (run : List Char) (h1 : run ≠ [])
    (h2 : run.all Char.isDigit = true) (h3 : 4294967296 ≤ digitsVal run) :
    parseU32 run = none := by
  obtain ⟨c, cs, rfl⟩ := List.exists_cons_of_ne_nil h1
  have hc : c.isDigit = true := List.all_eq_true.1 h2 c (List.mem_cons_self c cs)
  have hplus : ¬(c = '+') := by
    intro hh
    subst hh
    exact absurd hc (by decide)
  simp only [parseU32, stripPlus, hplus, if_false, List.isEmpty_cons,
    Bool.false_eq_true, h2, if_true]
  rw [if_neg (Nat.not_lt.2 h3)]

/-- Claim C10: `matches_number` absorbs `u32` overflow as a non-match —
when the extracted digit run's value exceeds `4294967295`, the parse
fails and the function returns `false` for every `n`. -/
theorem matches_number_overflow (f : String) (run : List Char) (n : Nat)
    (h : firstDigitRun f.data = some run)
    (hov : 4294967296 ≤ digitsVal run) :
    KeepFile.matches_number f n = false := by
  obtain ⟨hne, hdig⟩ := firstDigitRun_some_shape f.data run h
  simp [KeepFile.matches_number, h, parseU32_overflow run hne hdig hov]

/-- Witness for C10 at `"4294967296"` (= 2^32, one past `u32::MAX`). -/
theorem matches_number_overflow_witness :
    firstDigitRun "4294967296".data = some "4294967296".data ∧
    4294967296 ≤ digitsVal "4294967296".data ∧
    KeepFile.matches_number "4294967296" 0 = false :=
  ⟨by decide, by decide,
   matches_number_overflow "4294967296" "4294967296".data 0 (by decide) (by decide)⟩

theorem deleteLoop_stdout_verbose (ok : FsOp → Bool) (files : List RPath) :
    (deleteLoop ok true files).stdout = files.map OutLine.deleted := by
  induction files with
  | nil => rfl
  | cons f fs ih => simp [deleteLoop, ih]

theorem mcLoop_stdout_verbose (ok : FsOp → Bool) (op : MoveOrCopy) (dry : Bool)
    (srcDir destDir : RPath) (files : List RPath) :
    (mcLoop ok op dry true srcDir destDir files).stdout =
      files.filterMap (fun src => (src.stripPrefixFrom srcDir).map
        (fun rel => OutLine.transferred op src (destDir.join rel))) := by
  induction files with
  | nil => rfl
  | cons src rest ih =>
    simp only [mcLoop]
    cases h : src.stripPrefixFrom srcDir with
    | none => simp [h, ih]
    | some rel => simp [h, ih]

theorem mcLoop_dry_ops (ok : FsOp → Bool) (op : MoveOrCopy) (v : Bool)
    (srcDir destDir : RPath) (files : List RPath) :
    (mcLoop ok op true v srcDir destDir files).ops = [] ∧
    (mcLoop ok op true v srcDir destDir files).errs = 0 := by
  induction files with
  | nil => exact ⟨rfl, rfl⟩
  | cons src rest ih =>
    simp only [mcLoop]
    cases h : src.stripPrefixFrom srcDir with
    | none => simpa [h] using ih
    | some rel => simp [h, ih.1, ih.2]

/-- Claim C5: with `dry_run` set, neither handler attempts any filesystem
mutation (no remove, rename, copy or directory creation), while with
`verbose` also set the standard-output listing is exactly the one the
non-dry run would print. -/
theorem dry_run_frame (ok : FsOp → Bool) (op : MoveOrCopy) (v : Bool)
    (files : List RPath) (srcDir destDir : RPath) :
    (handle_delete ok ⟨true, v⟩ files).ops = [] ∧
    (handle_move_or_copy ok op ⟨true, v⟩ srcDir files destDir).ops = [] ∧
    (handle_delete ok ⟨true, true⟩ files).stdout =
      (handle_delete ok ⟨false, true⟩ files).stdout ∧
    (handle_move_or_copy ok op ⟨true, true⟩ srcDir files destDir).stdout =
      (handle_move_or_copy ok op ⟨false, true⟩ srcDir files destDir).stdout := by
  refine ⟨by simp [handle_delete], ?_, ?_, ?_⟩
  · simp [handle_move_or_copy, (mcLoop_dry_ops ok op v srcDir destDir files).1]
  · simp [handle_delete, deleteLoop_stdout_verbose]
  · simp [handle_move_or_copy, mcLoop_stdout_verbose]

theorem deleteLoop_stderr_errs (ok : FsOp → Bool) (v : Bool) (files : List RPath) :
    (deleteLoop ok v files).stderr = (files.filter (rmFailsAt ok)).map OutLine.rmError ∧
    (deleteLoop ok v files).errs = (files.filter (rmFailsAt ok)).length := by
  induction files with
  | nil => exact ⟨rfl, rfl⟩
  | cons f fs ih =>
    cases hok : ok (FsOp.removeFile f) <;>
      simp [deleteLoop, rmFailsAt, hok, List.filter_cons, ih.1, ih.2, Nat.add_comm]

theorem mcLoop_stderr_errs (ok : FsOp → Bool) (op : MoveOrCopy) (v : Bool)
    (srcDir destDir : RPath) (files : List RPath) :
    (mcLoop ok op false v srcDir destDir files).stderr =
      (files.filter (mcFailsAt ok op srcDir destDir)).map
        (fun src => OutLine.mcError src (mcDestFor srcDir destDir src)) ∧
    (mcLoop ok op false v srcDir destDir files).errs =
      (files.filter (mcFailsAt ok op srcDir destDir)).length := by
  induction files with
  | nil => exact ⟨rfl, rfl⟩
  | cons src rest ih =>
    simp only [mcLoop]
    cases h : src.stripPrefixFrom srcDir with
    | none =>
      have hf : mcFailsAt ok op srcDir destDir src = false := by simp [mcFailsAt, h]
      simp [h, hf, List.filter_cons, ih.1, ih.2]
    | some rel =>
      have hdest : mcDestFor srcDir destDir src = destDir.join rel := by
        simp [mcDestFor, h]
      cases hs : (op.move_or_copy ok src (destDir.join rel)).2 with
      | false =>
        have hf : mcFailsAt ok op srcDir destDir src = true := by
          simp [mcFailsAt, h, hs]
        simp [h, hs, hf, hdest, List.filter_cons, ih.1, ih.2, Nat.add_comm]
      | true =>
        have hf : mcFailsAt ok op srcDir destDir src = false := by
          simp [mcFailsAt, h, hs]
        simp [h, hs, hf, List.filter_cons, ih.1, ih.2]

/-- Claim C6 (counterexample): a source path whose collection-root prefix
cannot be stripped is skipped silently — nothing on the error stream, no
error counter, no summary — contradicting the claim that such a failure
is reported and counted. -/
theorem strip_failure_silent_counterexample :
    (RPath.mk ["other", "a"]).stripPrefixFrom (RPath.mk ["root"]) = none ∧
    handle_move_or_copy (fun _ => true) MoveOrCopy.move ⟨false, false⟩
      (RPath.mk ["root"]) [RPath.mk ["other", "a"]] (RPath.mk ["out"]) =
      ⟨[], [], []⟩ := by decide

/-- Claim C6 (amended): during non-dry-run execution every I/O failure on
remove, rename, copy or destination-directory creation is reported to the
error stream and counted, processing continues past failures (the verbose
listing still covers every later path), and the summary line appears
exactly when the counter is nonzero; a path whose prefix cannot be
stripped is silently skipped — neither reported nor counted. -/
theorem execution_failure_policy (ok : FsOp → Bool) (op : MoveOrCopy) (v : Bool)
    (files : List RPath) (srcDir destDir : RPath) :
    (handle_delete ok ⟨false, v⟩ files).stderr =
      (files.filter (rmFailsAt ok)).map OutLine.rmError ++
      (if 0 < (files.filter (rmFailsAt ok)).length
       then [OutLine.summary (files.filter (rmFailsAt ok)).length] else []) ∧
    (handle_move_or_copy ok op ⟨false, v⟩ srcDir files destDir).stderr =
      (files.filter (mcFailsAt ok op srcDir destDir)).map
        (fun src => OutLine.mcError src (mcDestFor srcDir destDir src)) ++
      (if 0 < (files.filter (mcFailsAt ok op srcDir destDir)).length
       then [OutLine.summary ((files.filter (mcFailsAt ok op srcDir destDir)).length)]
       else []) ∧
    (handle_move_or_copy ok op ⟨false, true⟩ srcDir files destDir).stdout =
      files.filterMap (fun src => (src.stripPrefixFrom srcDir).map
        (fun rel => OutLine.transferred op src (destDir.join rel))) := by
  refine ⟨?_, ?_, ?_⟩
  · simp [handle_delete, (deleteLoop_stderr_errs ok v files).1,
      (deleteLoop_stderr_errs ok v files).2]
  · simp [handle_move_or_copy, (mcLoop_stderr_errs ok op v srcDir destDir files).1,
      (mcLoop_stderr_errs ok op v srcDir destDir files).2]
  · simp [handle_move_or_copy, mcLoop_stdout_verbose]

theorem partitionLines_all_ok (lines : List String) :
    ∀ k, (∀ l ∈ lines, (parseU32 l.data).isSome = true) →
      KeepFile.partitionLines k lines =
        (lines.map (fun l => (parseU32 l.data).getD 0), []) := by
  induction lines with
  | nil => intro k _; rfl
  | cons l ls ih =>
    intro k h
    obtain ⟨v, hv⟩ := Option.isSome_iff_exists.1 (h l (List.mem_cons_self l ls))
    simp [KeepFile.partitionLines, hv,
      ih (k + 1) (fun x hx => h x (List.mem_cons_of_mem l hx))]

theorem partitionLines_snd_nil_iff (lines : List String) :
    ∀ k, ((KeepFile.partitionLines k lines).2 = [] ↔
      ∀ l ∈ lines, (parseU32 l.data).isSome = true) := by
  induction lines with
  | nil => intro k; simp [KeepFile.partitionLines]
  | cons l ls ih =>
    intro k
    cases hv : parseU32 l.data with
    | none => simp [KeepFile.partitionLines, hv]
    | some v => simp [KeepFile.partitionLines, hv, ih (k + 1)]

theorem partitionLines_snd_enum (lines : List String) :
    ∀ k, (KeepFile.partitionLines k lines).2 =
      (lines.enumFrom k).filterMap (fun p =>
        match parseU32 p.2.data with
        | none => some (p.1 + 1, p.2)
        | some _ => none) := by
  induction lines with
  | nil => intro k; rfl
  | cons l ls ih =>
    intro k
    cases hv : parseU32 l.data with
    | none => simp [KeepFile.partitionLines, List.enumFrom, hv, ih (k + 1)]
    | some v => simp [KeepFile.partitionLines, List.enumFrom, hv, ih (k + 1)]

/-- Claim C8: keep-file loading is all-or-nothing.  If every line parses
as `u32` the result is the ordered list of the parsed values (in
particular `1, 16, 167, 33` loads as exactly `[1, 16, 167, 33]`);
otherwise the result is a format error carrying every offending line's
1-based number and raw text, and no partially-loaded keep list is
produced. -/
theorem keepfile_load_all_or_nothing :
    (∀ lines : List String, (∀ l ∈ lines, (parseU32 l.data).isSome = true) →
       KeepFile.try_load lines =
         Except.ok ⟨lines.map (fun l => (parseU32 l.data).getD 0)⟩) ∧
    (∀ lines : List String, (∃ l ∈ lines, parseU32 l.data = none) →
       KeepFile.try_load lines =
         Except.error ((lines.enumFrom 0).filterMap (fun p =>
           match parseU32 p.2.data with
           | none => some (p.1 + 1, p.2)
           | some _ => none)) ∧
       (lines.enumFrom 0).filterMap (fun p =>
           match parseU32 p.2.data with
           | none => some (p.1 + 1, p.2)
           | some _ => none) ≠ []) ∧
    KeepFile.try_load ["1", "16", "167", "33"] = Except.ok ⟨[1, 16, 167, 33]⟩ := by
  refine ⟨?_, ?_, by decide⟩
  · intro lines h
    simp [KeepFile.try_load, partitionLines_all_ok lines 0 h]
  · intro lines h
    obtain ⟨l, hl, hnone⟩ := h
    have hsnd : (KeepFile.partitionLines 0 lines).2 ≠ [] := by
      rw [Ne, partitionLines_snd_nil_iff lines 0]
      intro hall
      have := hall l hl
      rw [hnone] at this
      exact absurd this (by decide)
    rw [← partitionLines_snd_enum lines 0]
    constructor
    · simp [KeepFile.try_load, List.isEmpty_iff, hsnd]
    · exact hsnd

/-- Witness for C8: the round-trip file `1, 16, 167, 33` parses with no
format errors to the ordered list. -/
theorem keepfile_load_witness :
    (∀ l ∈ (["1", "16", "167", "33"] : List String), (parseU32 l.data).isSome = true) ∧
    KeepFile.try_load ["1", "16", "167", "33"] =
      Except.ok ⟨(["1", "16", "167", "33"] : List String).map
        (fun l => (parseU32 l.data).getD 0)⟩ :=
  ⟨by decide, keepfile_load_all_or_nothing.1 ["1", "16", "167", "33"] (by decide)⟩

end DeleteRest
